import Mathlib

/-!
Verification of the FinRisk analysis pipeline against its specification.

The development shallowly embeds the two analyzer components
(`CreditAnalyzer` in `src/eda/credit_analysis.py`, `FraudAnalyzer` in
`src/eda/fraud_analysis.py`) and the numeric-cleaning utility
(`clean_numeric` in `src/utils/data_loader.py`).  A dataframe is a list of
rows; a row is an association list from column name to a dynamically typed
cell.  Missing values (pandas `NaN` / `None`) are the `Value.null` cell;
numeric cells are exact rationals.  Statistics that pandas reports as `NaN`
are modelled as `none` of an `Option`.
-/

namespace FinRisk

/-- Dynamic cell value of a tabular dataset: numeric, categorical,
timestamp (seconds since the epoch), or missing (`NaN`). -/
inductive Value where
  | num (q : ℚ)
  | str (s : String)
  | time (t : Int)
  | null
deriving DecidableEq

/-- A row: association list from column name to cell value. -/
abbrev Row := List (String × Value)

/-- A dataframe: the schema (column names) together with the rows. -/
structure Frame where
  cols : List String
  rows : List Row
deriving DecidableEq

/-- Cell of a row at a column; missing cells read as `null`. -/
def getVal (r : Row) (c : String) : Value :=
  match r.find? (fun p => p.1 == c) with
  | some p => p.2
  | none => Value.null

/-- Numeric view of a cell. -/
def numOf : Value → Option ℚ
  | Value.num q => some q
  | _ => none

def getNum (r : Row) (c : String) : Option ℚ := numOf (getVal r c)

def getStr (r : Row) (c : String) : Option String :=
  match getVal r c with
  | Value.str s => some s
  | _ => none

def getTime (r : Row) (c : String) : Option Int :=
  match getVal r c with
  | Value.time t => some t
  | _ => none

/-- Mean of a list of rationals; `none` on the empty list (pandas mean of
an empty or all-`NaN` series is `NaN`). -/
def listMean? (xs : List ℚ) : Option ℚ :=
  if xs.isEmpty then none else some (xs.sum / (xs.length : ℚ))

/-- Sum of squared deviations from the mean. -/
def sumSqDev (xs : List ℚ) : ℚ :=
  match listMean? xs with
  | some m => (xs.map (fun x => (x - m) ^ 2)).sum
  | none => 0

/-- Sample variance with `ddof = 1` (the square of pandas `Series.std`);
`none` for fewer than two observations, where pandas yields `NaN`. -/
def listVar? (xs : List ℚ) : Option ℚ :=
  if xs.length ≤ 1 then none else some (sumSqDev xs / ((xs.length : ℚ) - 1))

/-- The non-missing numeric values of a column, in row order (the values a
pandas reduction such as `mean` or `std` actually consumes). -/
def colVals (f : Frame) (c : String) : List ℚ :=
  f.rows.filterMap (fun r => getNum r c)

def colMean (f : Frame) (c : String) : Option ℚ := listMean? (colVals f c)

def colVar (f : Frame) (c : String) : Option ℚ := listVar? (colVals f c)

/-! ## Credit analyzer (`src/eda/credit_analysis.py`) -/

structure RiskMetrics where
  default_rate : Option ℚ
  avg_credit_score : Option ℚ
  high_risk_proportion : Option ℚ
deriving DecidableEq

/-- `CreditAnalyzer.calculate_risk_metrics`.  `default_rate` and
`avg_credit_score` embed `Series.mean` (skips missing values, `NaN` when
nothing remains).  `high_risk_proportion` embeds
`(data["credit_score"] < 600).mean()`: the comparison is `False` on a
missing value and the resulting boolean series is averaged over *all*
rows, so it is `NaN` exactly when the frame has no rows. -/
def calculate_risk_metrics (f : Frame) : RiskMetrics where
  default_rate := colMean f "default"
  avg_credit_score := colMean f "credit_score"
  high_risk_proportion :=
    if f.rows.isEmpty then none
    else some (((f.rows.filter (fun r =>
      match getNum r "credit_score" with
      | some q => decide (q < 600)
      | none => false)).length : ℚ) / (f.rows.length : ℚ))

/-- Round to two decimal places (`DataFrame.round(2)`). -/
def round2 (q : ℚ) : ℚ := ((round (q * 100) : ℤ) : ℚ) / 100

structure SegmentRow where
  key : String
  default_mean : Option ℚ
  credit_score_mean : Option ℚ
  loan_amount_mean : Option ℚ
deriving DecidableEq

/-- The distinct non-missing values of a (categorical) column, in the
ascending order pandas `groupby` lists group keys; rows with a missing key
are dropped by `groupby`. -/
def groupKeys (f : Frame) (c : String) : List String :=
  List.insertionSort (fun a b => a ≤ b) ((f.rows.filterMap (fun r => getStr r c)).dedup)

/-- The rows of the group with key `k` under grouping column `c`. -/
def groupRows (f : Frame) (c : String) (k : String) : List Row :=
  f.rows.filter (fun r => getStr r c == some k)

/-- `CreditAnalyzer.segment_analysis`.  `groupby` raises a `KeyError` when
the grouping column is not in the schema, and `agg` raises when one of the
aggregated columns is absent; per surviving group the three means are
rounded to two decimals. -/
def segment_analysis (f : Frame) (c : String) : Except String (List SegmentRow) :=
  if c ∈ f.cols then
    if "default" ∈ f.cols then
      if "credit_score" ∈ f.cols then
        if "loan_amount" ∈ f.cols then
          Except.ok ((groupKeys f c).map (fun k =>
            { key := k
              default_mean :=
                (listMean? ((groupRows f c k).filterMap (fun r => getNum r "default"))).map round2
              credit_score_mean :=
                (listMean? ((groupRows f c k).filterMap (fun r => getNum r "credit_score"))).map round2
              loan_amount_mean :=
                (listMean? ((groupRows f c k).filterMap (fun r => getNum r "loan_amount"))).map round2 }))
        else Except.error ("column not found: " ++ "loan_amount")
      else Except.error ("column not found: " ++ "credit_score")
    else Except.error ("column not found: " ++ "default")
  else Except.error ("column not found: " ++ c)

/-- The rows for which both features are present, as pairs — pandas
`DataFrame.corr` uses pairwise-complete observations. -/
def pairVals (f : Frame) (a b : String) : List (ℚ × ℚ) :=
  f.rows.filterMap (fun r =>
    match getNum r a, getNum r b with
    | some x, some y => some (x, y)
    | _, _ => none)

/-- Sum of products of deviations from the per-component means (the
correlation numerator before normalisation; the `1/(n-1)` factors of
covariance and standard deviation cancel in the correlation ratio). -/
def covS (ps : List (ℚ × ℚ)) : ℚ :=
  match listMean? (ps.map Prod.fst), listMean? (ps.map Prod.snd) with
  | some mx, some my => (ps.map (fun p => (p.1 - mx) * (p.2 - my))).sum
  | _, _ => 0

/-- Sum of squared deviations of the first components. -/
def varXS (ps : List (ℚ × ℚ)) : ℚ :=
  match listMean? (ps.map Prod.fst) with
  | some mx => (ps.map (fun p => (p.1 - mx) ^ 2)).sum
  | none => 0

/-- Sum of squared deviations of the second components. -/
def varYS (ps : List (ℚ × ℚ)) : ℚ :=
  match listMean? (ps.map Prod.snd) with
  | some my => (ps.map (fun p => (p.2 - my) ^ 2)).sum
  | none => 0

/-- One Pearson correlation entry,
`cov(a,b) / (std(a) * std(b))` over the pairwise-complete rows. -/
noncomputable def corrEntry (f : Frame) (a b : String) : ℝ :=
  ((covS (pairVals f a b) : ℚ) : ℝ) /
    (Real.sqrt ((varXS (pairVals f a b) : ℚ) : ℝ) *
     Real.sqrt ((varYS (pairVals f a b) : ℚ) : ℝ))

/-- `CreditAnalyzer.risk_correlation_analysis`: the correlation matrix of
the listed features, rows and columns in the given feature order. -/
noncomputable def risk_correlation_analysis (f : Frame) (features : List String) : List (List ℝ) :=
  features.map (fun a => features.map (fun b => corrEntry f a b))

/-! ## Fraud analyzer (`src/eda/fraud_analysis.py`) -/

/-- Python truthiness of the optional `amount_threshold` argument: the code
guards the filter with `if amount_threshold:`, so `None` and `0` / `0.0`
are falsy. -/
def truthy : Option ℚ → Bool
  | none => false
  | some v => v != 0

/-- The row set `calculate_velocity_metrics` actually aggregates:
`data[data["amount"] > amount_threshold]` when the threshold is truthy
(a missing `amount` compares `False`), the whole frame otherwise. -/
def velRows (f : Frame) (t? : Option ℚ) : List Row :=
  if truthy t? then
    f.rows.filter (fun r =>
      match getNum r "amount", t? with
      | some a, some t => decide (t < a)
      | _, _ => false)
  else f.rows

/-- Floor of a timestamp to a multiple of the window width `w` (pandas
`Grouper(freq=...)` buckets anchored at the epoch; floor division so that
pre-epoch timestamps also round down). -/
def bucket (w : Int) (d : Int) : Int := Int.fdiv d w * w

/-- Grouping key of a row for the velocity metrics: customer and time
bucket; `groupby` drops rows whose key is missing. -/
def keyOf (w : Int) (r : Row) : Option (String × Int) :=
  match getStr r "customer_id", getTime r "transaction_date" with
  | some cid, some d => some (cid, bucket w d)
  | _, _ => none

structure VelocityEntry where
  customer : String
  window : Int
  tx_count : Nat
  amount_sum : ℚ
  amount_mean : Option ℚ
deriving DecidableEq

/-- Aggregates of one (customer, bucket) group: count of non-missing
`transaction_id`, sum of non-missing `amount` (pandas sum of an all-missing
group is `0`), and mean of non-missing `amount`. -/
def aggGroup (rows : List Row) (w : Int) (key : String × Int) : VelocityEntry where
  customer := key.1
  window := key.2
  tx_count := ((rows.filter (fun r => keyOf w r == some key)).filter
    (fun r => getVal r "transaction_id" != Value.null)).length
  amount_sum := ((rows.filter (fun r => keyOf w r == some key)).filterMap
    (fun r => getNum r "amount")).sum
  amount_mean := listMean? ((rows.filter (fun r => keyOf w r == some key)).filterMap
    (fun r => getNum r "amount"))

/-- `FraudAnalyzer.calculate_velocity_metrics` with window width `w`
(seconds): optional truthiness-guarded amount filter, then grouping by
(customer, time bucket) with count/sum/mean aggregates.  One entry per
group key that occurs in the (possibly filtered) data. -/
def calculate_velocity_metrics (f : Frame) (w : Int) (t? : Option ℚ) : List VelocityEntry :=
  ((velRows f t?).filterMap (keyOf w)).dedup.map (aggGroup (velRows f t?) w)

/-- Spec-side reference semantics for the claim on
`calculate_velocity_metrics`, modelled from the spec words: whenever a
threshold is supplied the grouping and aggregates range only over the rows
whose `amount` is strictly greater than the threshold (rows with `amount`
equal to it, below it, or missing are excluded before grouping). -/
def velocitySpecFiltered (f : Frame) (w : Int) (t : ℚ) : List VelocityEntry :=
  ((f.rows.filter (fun r =>
      match getNum r "amount" with
      | some a => decide (t < a)
      | none => false)).filterMap (keyOf w)).dedup.map
    (aggGroup (f.rows.filter (fun r =>
      match getNum r "amount" with
      | some a => decide (t < a)
      | none => false)) w)

/-- Data of the absolute z-score `|value - mean| / std` of one cell, kept
in square form to stay inside the rationals: `some (sq, v)` stands for the
defined value `sqrt (sq / v)` with `sq = (value - mean)^2` and `v` the
sample variance; `none` is an undefined (`NaN`) z-score — missing value,
fewer than two observations, or zero standard deviation (with `std = 0`
every observed value equals the mean, so the code's `0 / 0` is `NaN`). -/
def absZ? (f : Frame) (c : String) (r : Row) : Option (ℚ × ℚ) :=
  match getNum r c, colMean f c, colVar f c with
  | some x, some m, some v => if v = 0 then none else some ((x - m) ^ 2, v)
  | _, _, _ => none

/-- Comparison `|z| > t` on the square-form z-score: `NaN > t` is `False`;
otherwise `sqrt (sq / v) > t` iff `t < 0`, or `t ≥ 0` and `sq > t^2 * v`. -/
def zGT (z : Option (ℚ × ℚ)) (t : ℚ) : Bool :=
  match z with
  | none => false
  | some (sq, v) => if t < 0 then true else decide (t ^ 2 * v < sq)

/-- The z-score column of one feature, aligned with the rows
(`z_scores[f"{c}_zscore"]` in the code). -/
def zscoreColumn (f : Frame) (c : String) : List (Option (ℚ × ℚ)) :=
  f.rows.map (absZ? f c)

/-- Row-wise disjunction across the aligned z-score columns:
`(z_scores_df > threshold).any(axis=1)`. -/
def anomalyMask (f : Frame) (features : List String) (t : ℚ) : List Bool :=
  (features.map (fun c => zscoreColumn f c)).foldl
    (fun acc col => List.zipWith (fun a z => a || zGT z t) acc col)
    (List.replicate f.rows.length false)

/-- `FraudAnalyzer.detect_anomalies`: the rows of the frame selected by
the anomaly mask (boolean indexing `self.data[mask]`). -/
def detect_anomalies (f : Frame) (features : List String) (threshold : ℚ) : List Row :=
  ((f.rows.zip (anomalyMask f features threshold)).filter (fun p => p.2)).map (fun p => p.1)

/-- A row is anomalous when the absolute z-score of at least one listed
feature exceeds the threshold; an undefined z-score (missing value, zero
or undefined standard deviation) never exceeds it. -/
def anomalousRow (f : Frame) (features : List String) (t : ℚ) (r : Row) : Bool :=
  features.any (fun c => zGT (absZ? f c r) t)

structure MerchantEntry where
  category : String
  tx_count : Nat
  fraud_rate : Option ℚ
deriving DecidableEq

/-- Aggregates of one merchant-category group: count of non-missing
`transaction_id` and mean of non-missing `is_fraud` (`NaN` when the group
has no observed `is_fraud`). -/
def merchantGroup (f : Frame) (k : String) : MerchantEntry where
  category := k
  tx_count := ((groupRows f "merchant_category" k).filter
    (fun r => getVal r "transaction_id" != Value.null)).length
  fraud_rate := listMean? ((groupRows f "merchant_category" k).filterMap
    (fun r => getNum r "is_fraud"))

/-- The filter `(count >= min_transactions) & (is_fraud >= risk_threshold)`
of the code; a `NaN` fraud rate compares `False`. -/
def qualifies (minT : Nat) (rt : ℚ) (e : MerchantEntry) : Bool :=
  decide (minT ≤ e.tx_count) &&
    (match e.fraud_rate with
     | some q => decide (rt ≤ q)
     | none => false)

/-- Fraud rate with the `NaN` default never reached after `qualifies`. -/
def rateD (e : MerchantEntry) : ℚ := e.fraud_rate.getD 0

/-- Descending-rate order used by `sort_values("is_fraud", ascending=False)`. -/
def rdesc (a b : MerchantEntry) : Prop := rateD b ≤ rateD a

instance : DecidableRel rdesc := fun a b => inferInstanceAs (Decidable (rateD b ≤ rateD a))

instance : IsTotal MerchantEntry rdesc := ⟨fun a b => le_total (rateD b) (rateD a)⟩

instance : IsTrans MerchantEntry rdesc := ⟨fun _ _ _ hab hbc => le_trans hbc hab⟩

/-- Documented semantics of `sort_values("is_fraud", ascending=False)`
with the default `kind="quicksort"`: some permutation of the input that is
ordered by fraud rate descending.  The relative order of entries with tied
rates is implementation-defined — the default sort is not stable — so the
sort is embedded as a relation admitting every rate-descending
permutation of the input rather than as one fixed output. -/
def sortValuesDesc (input output : List MerchantEntry) : Prop :=
  output.Perm input ∧ output.Pairwise rdesc

/-- `FraudAnalyzer.get_high_risk_merchants`: group by merchant category
(keys ascending), aggregate, keep the groups passing both inclusive
thresholds, and sort by fraud rate descending.  `output` ranges over the
results the unstable descending sort may produce. -/
def get_high_risk_merchants (f : Frame) (minT : Nat) (rt : ℚ)
    (output : List MerchantEntry) : Prop :=
  sortValuesDesc
    (((groupKeys f "merchant_category").map (merchantGroup f)).filter (qualifies minT rt))
    output

/-! ## Numeric cleaning (`src/utils/data_loader.py`) -/

/-- Median of the non-missing values (pandas `Series.median`): middle of
the sorted values, or the average of the two middles; `NaN` when empty. -/
def medianQ? (xs : List ℚ) : Option ℚ :=
  let s := List.insertionSort (fun a b => a ≤ b) xs
  if xs.length = 0 then none
  else if xs.length % 2 = 1 then some (s.getD (xs.length / 2) 0)
  else some ((s.getD (xs.length / 2 - 1) 0 + s.getD (xs.length / 2) 0) / 2)

/-- 99th percentile with linear interpolation (pandas
`Series.quantile(0.99)`): at fractional position `(n - 1) * 99/100` of the
sorted values; `NaN` when empty. -/
def quantile99? (xs : List ℚ) : Option ℚ :=
  let s := List.insertionSort (fun a b => a ≤ b) xs
  let n := xs.length
  if n = 0 then none
  else
    let h : ℚ := ((n : ℚ) - 1) * (99 / 100)
    let i : Nat := (⌊h⌋).toNat
    let lo := s.getD i 0
    let hi := s.getD (min (i + 1) (n - 1)) 0
    some (lo + (h - (i : ℚ)) * (hi - lo))

/-- `fillna(median)` on one cell. -/
def fillCell (m? : Option ℚ) : Value → Value
  | Value.null => match m? with
    | some m => Value.num m
    | none => Value.null
  | v => v

/-- `clip(upper=u)` on one cell: numeric values above `u` are capped at
`u`; with an undefined bound (`NaN`, from an empty column) `clip` leaves
the value unchanged. -/
def clipCell (u? : Option ℚ) : Value → Value
  | Value.num x => match u? with
    | some u => Value.num (min x u)
    | none => Value.num x
  | v => v

/-- Write a cell: replace every cell of column `c`, or append the column
to the row when absent (pandas column assignment `df[col] = series`). -/
def setVal (r : Row) (c : String) (v : Value) : Row :=
  if r.any (fun p => p.1 == c) then
    r.map (fun p => if p.1 == c then (c, v) else p)
  else r ++ [(c, v)]

/-- One iteration of the `clean_numeric` loop on column `c`: when the
column is in the schema, fill missing values with the column median, then
clip above the 99th percentile of the filled column; otherwise the frame
is untouched. -/
def cleanCol (f : Frame) (c : String) : Frame :=
  if c ∈ f.cols then
    let m? := medianQ? (colVals f c)
    let filled := f.rows.map (fun r => setVal r c (fillCell m? (getVal r c)))
    let u? := quantile99? (filled.filterMap (fun r => getNum r c))
    { f with rows := filled.map (fun r => setVal r c (clipCell u? (getVal r c))) }
  else f

/-- `clean_numeric(df, numeric_columns)`: the per-column loop. -/
def clean_numeric (f : Frame) (numeric_columns : List String) : Frame :=
  numeric_columns.foldl cleanCol f

/-- Column view of a frame: the cells of column `c`, in row order. -/
def valueColumn (f : Frame) (c : String) : List Value :=
  f.rows.map (fun r => getVal r c)

/-! ## Concrete datasets used as witnesses -/

/-- The five-row credit dataset of the concrete scenario in the spec. -/
def exCredit : Frame where
  cols := ["credit_score", "default"]
  rows :=
    [[("credit_score", Value.num 550), ("default", Value.num 1)],
     [("credit_score", Value.num 620), ("default", Value.num 0)],
     [("credit_score", Value.num 700), ("default", Value.num 0)],
     [("credit_score", Value.num 590), ("default", Value.num 1)],
     [("credit_score", Value.num 800), ("default", Value.num 0)]]

/-- A non-empty credit frame whose `default` and `credit_score` columns
are entirely missing. -/
def exAllMissing : Frame where
  cols := ["credit_score", "default"]
  rows := [[("credit_score", Value.null), ("default", Value.null)]]

/-- A credit frame with no rows. -/
def exEmpty : Frame where
  cols := ["credit_score", "default"]
  rows := []

/-- A one-row transaction frame whose single `amount` is negative. -/
def exVel : Frame where
  cols := ["customer_id", "transaction_id", "transaction_date", "amount"]
  rows :=
    [[("customer_id", Value.str "c"), ("transaction_id", Value.num 1),
      ("transaction_date", Value.time 0), ("amount", Value.num (-5))]]

/-- A transaction frame with four small and one large `amount`. -/
def exAnom : Frame where
  cols := ["amount"]
  rows :=
    [[("amount", Value.num 10)], [("amount", Value.num 10)],
     [("amount", Value.num 10)], [("amount", Value.num 10)],
     [("amount", Value.num 1000)]]

/-- A one-row merchant frame whose single group fails the count bound. -/
def exMerch : Frame where
  cols := ["merchant_category", "transaction_id", "is_fraud"]
  rows :=
    [[("merchant_category", Value.str "a"), ("transaction_id", Value.num 1),
      ("is_fraud", Value.num 0)]]

/-- A two-category merchant frame whose two groups have equal fraud
rates. -/
def exTie : Frame where
  cols := ["merchant_category", "transaction_id", "is_fraud"]
  rows :=
    [[("merchant_category", Value.str "a"), ("transaction_id", Value.num 1),
      ("is_fraud", Value.num 0)],
     [("merchant_category", Value.str "b"), ("transaction_id", Value.num 2),
      ("is_fraud", Value.num 0)]]

/-- A two-segment credit frame. -/
def exSeg : Frame where
  cols := ["region", "default", "credit_score", "loan_amount"]
  rows :=
    [[("region", Value.str "b"), ("default", Value.num 1),
      ("credit_score", Value.num 500), ("loan_amount", Value.num 100)],
     [("region", Value.str "a"), ("default", Value.num 0),
      ("credit_score", Value.num 700), ("loan_amount", Value.num 200)]]

/-- A three-row frame with two numeric features of nonzero variance. -/
def exCorr : Frame where
  cols := ["credit_score", "loan_amount"]
  rows :=
    [[("credit_score", Value.num 1), ("loan_amount", Value.num 2)],
     [("credit_score", Value.num 2), ("loan_amount", Value.num 1)],
     [("credit_score", Value.num 3), ("loan_amount", Value.num 4)]]

/-- A three-row frame with one missing `amount`. -/
def exClean : Frame where
  cols := ["amount"]
  rows := [[("amount", Value.num 1)], [("amount", Value.null)], [("amount", Value.num 3)]]

/-! ## Theorems -/

/-- C6: on the concrete five-row credit dataset with
`credit_score = [550, 620, 700, 590, 800]` and `default = [1, 0, 0, 1, 0]`,
`calculate_risk_metrics` returns `default_rate = 0.4`,
`avg_credit_score = 652.0` and `high_risk_proportion = 0.4`. -/
theorem risk_metrics_concrete :
    calculate_risk_metrics exCredit =
      { default_rate := some (2 / 5), avg_credit_score := some 652,
        high_risk_proportion := some (2 / 5) } := by
  simp +decide [calculate_risk_metrics, colMean, colVals, listMean?, exCredit, getNum, getVal, numOf]
  norm_num

/-- C2 counterexample: on a non-empty frame whose `credit_score` column is
entirely missing, `high_risk_proportion` is `0`, not undefined/NaN — the
boolean comparison `credit_score < 600` is `False` on missing values and
its mean is taken over all rows.  The claim asserts all three statistics
are NaN in this case. -/
theorem risk_metrics_all_missing_counterexample :
    calculate_risk_metrics exAllMissing =
      { default_rate := none, avg_credit_score := none,
        high_risk_proportion := some 0 } := by
  simp +decide [calculate_risk_metrics, colMean, colVals, listMean?, exAllMissing, getNum, getVal, numOf]

/-- C2 amended: `default_rate` and `avg_credit_score` are undefined/NaN
when the dataset is empty or their column is entirely missing, and all
three statistics are undefined on an empty dataset; but when `credit_score`
is entirely missing in a non-empty dataset, `high_risk_proportion` is `0`
rather than NaN.  No case raises an exception (the embedding is total). -/
theorem risk_metrics_degeneration (f : Frame) :
    (f.rows = [] → calculate_risk_metrics f =
        { default_rate := none, avg_credit_score := none,
          high_risk_proportion := none }) ∧
    (colVals f "default" = [] → (calculate_risk_metrics f).default_rate = none) ∧
    (colVals f "credit_score" = [] → (calculate_risk_metrics f).avg_credit_score = none) ∧
    (f.rows ≠ [] → colVals f "credit_score" = [] →
      (calculate_risk_metrics f).high_risk_proportion = some 0) := by
  refine ⟨?_, ?_, ?_, ?_⟩
  · intro h
    simp [calculate_risk_metrics, colMean, colVals, listMean?, h]
  · intro h
    simp [calculate_risk_metrics, colMean, h, listMean?]
  · intro h
    simp [calculate_risk_metrics, colMean, h, listMean?]
  · intro hne hnil
    have hall : ∀ r ∈ f.rows, getNum r "credit_score" = none := by
      simpa [colVals, List.filterMap_eq_nil_iff] using hnil
    have hfil : f.rows.filter (fun r =>
        match getNum r "credit_score" with
        | some q => decide (q < 600)
        | none => false) = [] := by
      refine List.filter_eq_nil_iff.mpr ?_
      intro r hr
      rw [hall r hr]
      exact Bool.false_ne_true
    simp [calculate_risk_metrics, hfil, hne]

/-- C2 amended, witness at the empty credit frame. -/
theorem risk_metrics_degeneration_witness :
    calculate_risk_metrics exEmpty =
      { default_rate := none, avg_credit_score := none,
        high_risk_proportion := none } :=
  (risk_metrics_degeneration exEmpty).1 rfl

/-- C10: `calculate_velocity_metrics` guards the filter with Python
truthiness, so a supplied threshold of `0` produces exactly the result of
supplying no threshold — no filtering at all, every row (negative amounts
included) is kept. -/
theorem velocity_zero_threshold_no_filter (f : Frame) (w : Int) :
    calculate_velocity_metrics f w (some 0) = calculate_velocity_metrics f w none := by
  simp [calculate_velocity_metrics, velRows, truthy]

/-- C1 counterexample: with the supplied (non-null) threshold `0` and a
single row of negative amount, `calculate_velocity_metrics` still groups
and aggregates that row, while the claimed semantics (group only the rows
with `amount > 0`) would produce no groups at all. -/
theorem velocity_zero_threshold_counterexample :
    calculate_velocity_metrics exVel 3600 (some 0) =
      [{ customer := "c", window := 0, tx_count := 1, amount_sum := -5,
         amount_mean := some (-5) }] ∧
    velocitySpecFiltered exVel 3600 0 = [] := by
  constructor
  · simp +decide [calculate_velocity_metrics, velRows, truthy, keyOf, bucket, aggGroup,
      exVel, getStr, getTime, getNum, getVal, numOf, listMean?]
  · simp +decide [velocitySpecFiltered, exVel, getNum, getVal, numOf]

/-- C1 amended: whenever a non-null *and nonzero* `amount_threshold` is
supplied, `calculate_velocity_metrics` computes its grouping and
aggregates only over the rows whose amount is strictly greater than the
threshold (rows with amount equal to it, below it, or missing are excluded
before grouping); a supplied threshold of `0` is falsy and disables the
filter. -/
theorem velocity_nonzero_threshold_filters (f : Frame) (w : Int) (t : ℚ) (h : t ≠ 0) :
    calculate_velocity_metrics f w (some t) = velocitySpecFiltered f w t := by
  have ht : truthy (some t) = true := by simp [truthy, h]
  have hp : ∀ r : Row, (match getNum r "amount", (some t : Option ℚ) with
      | some a, some t => decide (t < a)
      | _, _ => false)
      = (match getNum r "amount" with
        | some a => decide (t < a)
        | none => false) := by
    intro r
    cases getNum r "amount" <;> rfl
  simp [calculate_velocity_metrics, velocitySpecFiltered, velRows, ht, hp]

/-- C1 amended, witness at the one-row frame and threshold `1`. -/
theorem velocity_nonzero_threshold_filters_witness :
    (1 : ℚ) ≠ 0 ∧
      calculate_velocity_metrics exVel 3600 (some 1) = velocitySpecFiltered exVel 3600 1 :=
  ⟨by norm_num, velocity_nonzero_threshold_filters exVel 3600 1 (by norm_num)⟩

/-- Zipping a list with a pointwise boolean map of itself and keeping the
flagged elements is filtering by the predicate. -/
theorem zip_map_filter {α : Type} (l : List α) (p : α → Bool) :
    ((l.zip (l.map p)).filter (fun q => q.2)).map (fun q => q.1) = l.filter p := by
  induction l with
  | nil => rfl
  | cons a t ih =>
    cases h : p a <;> simp [List.filter_cons, h, ih]

/-- `zipWith` of two pointwise maps of the same list is a single map. -/
theorem zipWith_map_same {α β γ δ : Type} (l : List α) (g : α → β) (h : α → γ)
    (k : β → γ → δ) :
    List.zipWith k (l.map g) (l.map h) = l.map (fun a => k (g a) (h a)) := by
  induction l with
  | nil => rfl
  | cons a t ih => simp [ih]

/-- The column-wise OR fold of the anomaly mask, with an arbitrary
row-pointwise accumulator. -/
theorem anomalyMask_foldl (f : Frame) (t : ℚ) (l : List String) (g : Row → Bool) :
    (l.map (fun c => zscoreColumn f c)).foldl
      (fun acc col => List.zipWith (fun a z => a || zGT z t) acc col)
      (f.rows.map g)
    = f.rows.map (fun r => g r || l.any (fun c => zGT (absZ? f c r) t)) := by
  induction l generalizing g with
  | nil => simp
  | cons c cs ih =>
    have hstep : List.zipWith (fun a z => a || zGT z t) (f.rows.map g) (zscoreColumn f c)
        = f.rows.map (fun r => g r || zGT (absZ? f c r) t) := by
      unfold zscoreColumn
      exact zipWith_map_same f.rows g (absZ? f c) (fun a z => a || zGT z t)
    simp only [List.map_cons, List.foldl_cons, hstep, ih]
    simp [Bool.or_assoc]

/-- The anomaly mask is the row-pointwise anomaly predicate. -/
theorem anomalyMask_eq (f : Frame) (feats : List String) (t : ℚ) :
    anomalyMask f feats t = f.rows.map (anomalousRow f feats t) := by
  rw [anomalyMask, ← List.map_const', anomalyMask_foldl]
  simp [anomalousRow]

/-- `detect_anomalies` filters the rows by the anomaly predicate. -/
theorem detect_eq_filter (f : Frame) (feats : List String) (t : ℚ) :
    detect_anomalies f feats t = f.rows.filter (anomalousRow f feats t) := by
  rw [detect_anomalies, anomalyMask_eq, zip_map_filter]

/-- The sum of squared deviations is nonnegative. -/
theorem sumSqDev_nonneg (xs : List ℚ) : 0 ≤ sumSqDev xs := by
  unfold sumSqDev
  cases h : listMean? xs with
  | none => exact le_refl 0
  | some m =>
    apply List.sum_nonneg
    intro x hx
    simp only [List.mem_map] at hx
    obtain ⟨y, _, rfl⟩ := hx
    positivity

/-- A defined sample variance is nonnegative. -/
theorem listVar_nonneg (xs : List ℚ) (v : ℚ) (h : listVar? xs = some v) : 0 ≤ v := by
  by_cases hn : xs.length ≤ 1
  · simp [listVar?, hn] at h
  · simp only [listVar?, if_neg hn, Option.some.injEq] at h
    rw [← h]
    apply div_nonneg (sumSqDev_nonneg xs)
    have h2 : 2 ≤ xs.length := by omega
    have : (2 : ℚ) ≤ (xs.length : ℚ) := by exact_mod_cast h2
    linarith

/-- The variance component of a defined square-form z-score is
nonnegative. -/
theorem absZ_var_nonneg (f : Frame) (c : String) (r : Row) (sq v : ℚ)
    (h : absZ? f c r = some (sq, v)) : 0 ≤ v := by
  unfold absZ? at h
  cases hg : getNum r c <;> rw [hg] at h
  · simp at h
  · cases hm : colMean f c <;> rw [hm] at h
    · simp at h
    · cases hv : colVar f c <;> rw [hv] at h
      · simp at h
      · rename_i x m v'
        by_cases h0 : v' = 0
        · simp [h0] at h
        · simp only [if_neg h0, Option.some.injEq, Prod.mk.injEq] at h
          rw [← h.2]
          exact listVar_nonneg (colVals f c) v' hv

/-- C3: `detect_anomalies` returns exactly the original rows, in original
row order and with all original columns, for which the absolute z-score
(value minus feature mean over the sample standard deviation, ddof = 1) of
at least one listed feature exceeds the threshold; a zero standard
deviation or a missing feature value gives an undefined z-score, treated
as not exceeding. -/
theorem detect_anomalies_characterization (f : Frame) (feats : List String) (t : ℚ) :
    detect_anomalies f feats t = f.rows.filter (anomalousRow f feats t) :=
  detect_eq_filter f feats t

/-- C4: raising the threshold strictly can only shrink or preserve the set
of rows returned by `detect_anomalies`, and re-running with identical
inputs returns the same rows in the same order. -/
theorem detect_anomalies_monotone (f : Frame) (feats : List String) (t1 t2 : ℚ)
    (h : t1 < t2) :
    (∀ r, r ∈ detect_anomalies f feats t2 → r ∈ detect_anomalies f feats t1) ∧
      detect_anomalies f feats t2 = detect_anomalies f feats t2 := by
  refine ⟨?_, rfl⟩
  intro r hr
  rw [detect_eq_filter, List.mem_filter] at hr ⊢
  refine ⟨hr.1, ?_⟩
  have h2 := hr.2
  simp only [anomalousRow, List.any_eq_true] at h2 ⊢
  obtain ⟨c, hc, hgt⟩ := h2
  refine ⟨c, hc, ?_⟩
  cases hz : absZ? f c r with
  | none => rw [hz] at hgt; simp [zGT] at hgt
  | some p =>
    obtain ⟨sq, v⟩ := p
    have hv0 : 0 ≤ v := absZ_var_nonneg f c r sq v hz
    rw [hz] at hgt
    simp only [zGT] at hgt ⊢
    by_cases h1 : t1 < 0
    · simp [h1]
    · have ht2 : ¬ t2 < 0 := by
        intro hcon
        exact h1 (lt_trans h hcon)
      rw [if_neg ht2] at hgt
      rw [if_neg h1]
      have hlt : t2 ^ 2 * v < sq := of_decide_eq_true hgt
      have h10 : 0 ≤ t1 := not_lt.mp h1
      have hsq : t1 ^ 2 ≤ t2 ^ 2 := by nlinarith
      have hmul : t1 ^ 2 * v ≤ t2 ^ 2 * v := mul_le_mul_of_nonneg_right hsq hv0
      exact decide_eq_true (lt_of_le_of_lt hmul hlt)

/-- C4, witness at the five-row amount frame with thresholds `1 < 2`. -/
theorem detect_anomalies_monotone_witness :
    (1 : ℚ) < 2 ∧
      (∀ r, r ∈ detect_anomalies exAnom ["amount"] 2 →
        r ∈ detect_anomalies exAnom ["amount"] 1) :=
  ⟨by norm_num, (detect_anomalies_monotone exAnom ["amount"] 1 2 (by norm_num)).1⟩

/-- The group keys of a grouping column are strictly ascending. -/
theorem groupKeys_sorted_lt (f : Frame) (c : String) :
    (groupKeys f c).Pairwise (fun a b => a < b) := by
  have hs : (groupKeys f c).Pairwise (fun a b : String => a ≤ b) :=
    List.sorted_insertionSort _ _
  have hn : (groupKeys f c).Nodup :=
    ((List.perm_insertionSort _ _).nodup_iff).mpr (List.nodup_dedup _)
  exact (hs.and hn).imp (fun h => lt_of_le_of_ne h.1 h.2)

/-- Membership in the group keys is existence of a row with that key. -/
theorem mem_groupKeys (f : Frame) (c : String) (k : String) :
    k ∈ groupKeys f c ↔ ∃ r, r ∈ f.rows ∧ getStr r c = some k := by
  unfold groupKeys
  rw [List.Perm.mem_iff (List.perm_insertionSort _ _), List.mem_dedup, List.mem_filterMap]

/-- The qualification test of `get_high_risk_merchants`, spelled out. -/
theorem qualifies_iff (minT : Nat) (rt : ℚ) (e : MerchantEntry) :
    qualifies minT rt e = true ↔
      (minT ≤ e.tx_count ∧ ∃ q, e.fraud_rate = some q ∧ rt ≤ q) := by
  unfold qualifies
  cases e.fraud_rate <;> simp

/-- C5 counterexample: with two qualifying groups tied at the same fraud
rate, the reversed (key-descending) order is an admissible result of the
code's unstable descending sort, and it is not tie-broken by group key
ascending.  The tie order asserted by the claim is therefore not a
property of the code. -/
theorem high_risk_merchants_tie_counterexample :
    get_high_risk_merchants exTie 1 0
      [{ category := "b", tx_count := 1, fraud_rate := some 0 },
       { category := "a", tx_count := 1, fraud_rate := some 0 }] ∧
    ¬ ([{ category := "b", tx_count := 1, fraud_rate := some 0 },
        { category := "a", tx_count := 1, fraud_rate := some 0 }].Pairwise
        (fun x y : MerchantEntry =>
          rateD y < rateD x ∨ (rateD x = rateD y ∧ x.category < y.category))) := by
  have hfil : ((groupKeys exTie "merchant_category").map (merchantGroup exTie)).filter
      (qualifies 1 0)
      = [{ category := "a", tx_count := 1, fraud_rate := some 0 },
         { category := "b", tx_count := 1, fraud_rate := some 0 }] := by
    simp +decide [groupKeys, merchantGroup, groupRows, exTie, getStr, getVal, getNum,
      numOf, listMean?, List.insertionSort, List.orderedInsert, qualifies]
  constructor
  · refine ⟨?_, ?_⟩
    · rw [hfil]
      exact List.Perm.swap _ _ _
    · simp [rdesc, rateD]
  · intro hcon
    have h := List.rel_of_pairwise_cons hcon (List.mem_singleton.mpr rfl)
    rcases h with h | h
    · simp [rateD] at h
    · refine absurd h.2 ?_
      simp
      decide

/-- C5 amended: every admissible result of `get_high_risk_merchants`
contains exactly the merchant-category groups whose transaction count is
at least `min_transactions` and whose mean `is_fraud` is defined and at
least `risk_threshold` (both bounds inclusive; no qualifying group
omitted, none included wrongly), is ordered by fraud rate descending (the
relative order of groups with tied rates is not specified by the code,
whose default sort is unstable), and is empty when no group qualifies,
rather than an error; an admissible result always exists. -/
theorem high_risk_merchants_spec (f : Frame) (minT : Nat) (rt : ℚ) :
    (∃ out, get_high_risk_merchants f minT rt out) ∧
    (∀ out, get_high_risk_merchants f minT rt out →
      (∀ e, e ∈ out ↔
        (e ∈ (groupKeys f "merchant_category").map (merchantGroup f) ∧
          minT ≤ e.tx_count ∧ ∃ q, e.fraud_rate = some q ∧ rt ≤ q)) ∧
      out.Pairwise (fun x y => rateD y ≤ rateD x) ∧
      ((∀ e ∈ (groupKeys f "merchant_category").map (merchantGroup f),
          ¬ (minT ≤ e.tx_count ∧ ∃ q, e.fraud_rate = some q ∧ rt ≤ q)) →
        out = [])) := by
  constructor
  · refine ⟨List.insertionSort rdesc
      (((groupKeys f "merchant_category").map (merchantGroup f)).filter
        (qualifies minT rt)), ?_, ?_⟩
    · exact List.perm_insertionSort _ _
    · exact List.sorted_insertionSort _ _
  · intro out hout
    obtain ⟨hperm, hsort⟩ := hout
    refine ⟨?_, hsort, ?_⟩
    · intro e
      rw [hperm.mem_iff, List.mem_filter, qualifies_iff]
    · intro hnone
      have hfil : ((groupKeys f "merchant_category").map (merchantGroup f)).filter
          (qualifies minT rt) = [] := by
        refine List.filter_eq_nil_iff.mpr ?_
        intro e he hq
        exact hnone e he ((qualifies_iff minT rt e).mp hq)
      rw [hfil] at hperm
      exact hperm.eq_nil

/-- C5 amended, witness at the one-group frame where the count bound
fails: the empty list is an admissible result, and the conclusion holds
of it. -/
theorem high_risk_merchants_spec_witness :
    (∀ e, e ∈ ([] : List MerchantEntry) ↔
      (e ∈ (groupKeys exMerch "merchant_category").map (merchantGroup exMerch) ∧
        2 ≤ e.tx_count ∧ ∃ q, e.fraud_rate = some q ∧ (1 / 10 : ℚ) ≤ q)) ∧
    ([] : List MerchantEntry).Pairwise (fun x y => rateD y ≤ rateD x) ∧
    ((∀ e ∈ (groupKeys exMerch "merchant_category").map (merchantGroup exMerch),
        ¬ (2 ≤ e.tx_count ∧ ∃ q, e.fraud_rate = some q ∧ (1 / 10 : ℚ) ≤ q)) →
      ([] : List MerchantEntry) = []) := by
  have hfil : ((groupKeys exMerch "merchant_category").map (merchantGroup exMerch)).filter
      (qualifies 2 (1 / 10)) = [] := by
    simp +decide [groupKeys, merchantGroup, groupRows, exMerch, getStr, getVal, getNum,
      numOf, listMean?, List.insertionSort, List.orderedInsert, qualifies]
  exact (high_risk_merchants_spec exMerch 2 (1 / 10)).2 []
    ⟨by rw [hfil], List.Pairwise.nil⟩

/-- Pointwise-equal partial maps give equal `filterMap`s. -/
theorem filterMap_ext {α β : Type} (l : List α) (g h : α → Option β)
    (he : ∀ a, g a = h a) : l.filterMap g = l.filterMap h := by
  induction l with
  | nil => rfl
  | cons a t ih => simp only [List.filterMap_cons, he a, ih]

/-- Swapping the feature pair transposes the pairwise-complete rows. -/
theorem pairVals_swap (f : Frame) (a b : String) :
    pairVals f a b = (pairVals f b a).map Prod.swap := by
  unfold pairVals
  rw [List.map_filterMap]
  apply filterMap_ext
  intro r
  cases getNum r a <;> cases getNum r b <;> rfl

/-- The pairwise-complete rows of a feature with itself are its column
values, duplicated. -/
theorem pairVals_diag (f : Frame) (a : String) :
    pairVals f a a = (colVals f a).map (fun x => (x, x)) := by
  unfold pairVals colVals
  rw [List.map_filterMap]
  apply filterMap_ext
  intro r
  cases getNum r a <;> rfl

/-- The correlation numerator is invariant under transposition. -/
theorem covS_swap (ps : List (ℚ × ℚ)) : covS (ps.map Prod.swap) = covS ps := by
  unfold covS
  simp only [List.map_map, Function.comp_def, Prod.fst_swap, Prod.snd_swap]
  cases hx : listMean? (ps.map (fun p => p.1)) <;>
    cases hy : listMean? (ps.map (fun p => p.2)) <;>
      simp only [hx, hy]
  congr 1
  apply List.map_congr_left
  intro p _
  ring

/-- Transposition exchanges the two squared-deviation sums. -/
theorem varXS_swap (ps : List (ℚ × ℚ)) : varXS (ps.map Prod.swap) = varYS ps := by
  unfold varXS varYS
  simp only [List.map_map, Function.comp_def, Prod.fst_swap]

/-- Transposition exchanges the two squared-deviation sums. -/
theorem varYS_swap (ps : List (ℚ × ℚ)) : varYS (ps.map Prod.swap) = varXS ps := by
  unfold varXS varYS
  simp only [List.map_map, Function.comp_def, Prod.snd_swap]

/-- On a duplicated list the numerator is the squared-deviation sum. -/
theorem covS_diag (xs : List ℚ) :
    covS (xs.map (fun x => (x, x))) = varXS (xs.map (fun x => (x, x))) := by
  unfold covS varXS
  simp only [List.map_map, Function.comp_def]
  cases hm : listMean? (xs.map (fun x => (x, x).1)) <;> simp only [hm]
  congr 1
  apply List.map_congr_left
  intro x _
  ring

/-- On a duplicated list the two squared-deviation sums agree. -/
theorem varYS_diag (xs : List ℚ) :
    varYS (xs.map (fun x => (x, x))) = varXS (xs.map (fun x => (x, x))) := by
  unfold varXS varYS
  simp only [List.map_map, Function.comp_def]

/-- The squared-deviation sum is nonnegative. -/
theorem varXS_nonneg (ps : List (ℚ × ℚ)) : 0 ≤ varXS ps := by
  unfold varXS
  cases hm : listMean? (ps.map Prod.fst) with
  | none => exact le_refl 0
  | some m =>
    apply List.sum_nonneg
    intro x hx
    simp only [List.mem_map] at hx
    obtain ⟨p, _, rfl⟩ := hx
    positivity

/-- A correlation entry is symmetric in its two features. -/
theorem corrEntry_symm (f : Frame) (a b : String) : corrEntry f a b = corrEntry f b a := by
  unfold corrEntry
  rw [pairVals_swap f a b, covS_swap, varXS_swap, varYS_swap, mul_comm]

/-- A diagonal correlation entry of a feature with nonzero
squared-deviation sum is exactly `1`. -/
theorem corrEntry_diag (f : Frame) (a : String)
    (h : varXS (pairVals f a a) ≠ 0) : corrEntry f a a = 1 := by
  unfold corrEntry
  rw [pairVals_diag f a] at h ⊢
  rw [covS_diag, varYS_diag]
  have hS0 : (0 : ℚ) ≤ varXS ((colVals f a).map (fun x => (x, x))) :=
    varXS_nonneg _
  have hcast : ((varXS ((colVals f a).map (fun x => (x, x))) : ℚ) : ℝ) ≠ 0 := by
    exact_mod_cast h
  rw [Real.mul_self_sqrt (by exact_mod_cast hS0)]
  exact div_self hcast

/-- C7: for every feature list over numeric columns with nonzero variance,
`risk_correlation_analysis` is a square matrix indexed by the features in
the given order, symmetric (the `(i, j)` entry equals the `(j, i)` entry),
with every diagonal entry exactly `1.0`. -/
theorem corr_symm_diag (f : Frame) (feats : List String)
    (hvar : ∀ c ∈ feats, varXS (pairVals f c c) ≠ 0) :
    (∀ i j, i < feats.length → j < feats.length →
      ((risk_correlation_analysis f feats).getD i []).getD j 0 =
        ((risk_correlation_analysis f feats).getD j []).getD i 0) ∧
    (∀ i, i < feats.length →
      ((risk_correlation_analysis f feats).getD i []).getD i 0 = 1) := by
  have hentry : ∀ i j (hi : i < feats.length) (hj : j < feats.length),
      ((risk_correlation_analysis f feats).getD i []).getD j 0 =
        corrEntry f (feats.get ⟨i, hi⟩) (feats.get ⟨j, hj⟩) := by
    intro i j hi hj
    have hrow : (risk_correlation_analysis f feats).getD i []
        = feats.map (fun b => corrEntry f (feats.get ⟨i, hi⟩) b) := by
      unfold risk_correlation_analysis
      rw [List.getD_eq_getElem _ _ (by simpa using hi), List.getElem_map]
      rfl
    rw [hrow, List.getD_eq_getElem _ _ (by simpa using hj), List.getElem_map]
    rfl
  constructor
  · intro i j hi hj
    rw [hentry i j hi hj, hentry j i hj hi]
    exact corrEntry_symm f _ _
  · intro i hi
    rw [hentry i i hi hi]
    exact corrEntry_diag f _ (hvar _ (feats.get_mem _ _))

/-- C7, witness at the two-feature three-row frame. -/
theorem corr_symm_diag_witness :
    (((risk_correlation_analysis exCorr ["credit_score", "loan_amount"]).getD 0 []).getD 1 0 =
      ((risk_correlation_analysis exCorr ["credit_score", "loan_amount"]).getD 1 []).getD 0 0) ∧
    ((risk_correlation_analysis exCorr ["credit_score", "loan_amount"]).getD 0 []).getD 0 0 = 1 := by
  have hvar : ∀ c ∈ ["credit_score", "loan_amount"], varXS (pairVals exCorr c c) ≠ 0 := by
    intro c hc
    rcases List.mem_cons.mp hc with rfl | hc2
    · simp +decide [varXS, pairVals, exCorr, getNum, getVal, numOf, listMean?]
      norm_num
    · rw [List.mem_singleton] at hc2
      subst hc2
      simp +decide [varXS, pairVals, exCorr, getNum, getVal, numOf, listMean?]
      norm_num
  have h := corr_symm_diag exCorr ["credit_score", "loan_amount"] hvar
  exact ⟨h.1 0 1 (by decide) (by decide), h.2 0 (by decide)⟩

/-- C8: `segment_analysis` fails with a column-not-found error when the
grouping column is absent from the schema; otherwise (with the three
aggregated credit columns present, as the credit schema guarantees) it
returns exactly one row per distinct value of the grouping column, in
ascending key order, carrying the group means of `default`,
`credit_score` and `loan_amount`, each rounded to two decimal places. -/
theorem segment_analysis_spec (f : Frame) (c : String) :
    (c ∉ f.cols → segment_analysis f c = Except.error ("column not found: " ++ c)) ∧
    (c ∈ f.cols → "default" ∈ f.cols → "credit_score" ∈ f.cols → "loan_amount" ∈ f.cols →
      ∃ res, segment_analysis f c = Except.ok res ∧
        (res.map SegmentRow.key).Pairwise (fun a b => a < b) ∧
        (∀ k, k ∈ res.map SegmentRow.key ↔ ∃ r, r ∈ f.rows ∧ getStr r c = some k) ∧
        (∀ g ∈ res,
          g.default_mean =
            (listMean? ((groupRows f c g.key).filterMap (fun r => getNum r "default"))).map
              round2 ∧
          g.credit_score_mean =
            (listMean? ((groupRows f c g.key).filterMap (fun r => getNum r "credit_score"))).map
              round2 ∧
          g.loan_amount_mean =
            (listMean? ((groupRows f c g.key).filterMap (fun r => getNum r "loan_amount"))).map
              round2)) := by
  constructor
  · intro hc
    unfold segment_analysis
    rw [if_neg hc]
  · intro hc hd hcs hl
    unfold segment_analysis
    rw [if_pos hc, if_pos hd, if_pos hcs, if_pos hl]
    refine ⟨_, rfl, ?_, ?_, ?_⟩
    · simpa [List.map_map, Function.comp_def] using groupKeys_sorted_lt f c
    · intro k
      simpa [List.map_map, Function.comp_def] using mem_groupKeys f c k
    · intro g hg
      simp only [List.mem_map] at hg
      obtain ⟨k, _, rfl⟩ := hg
      exact ⟨rfl, rfl, rfl⟩

/-- C8, witness at the two-segment credit frame. -/
theorem segment_analysis_spec_witness :
    ∃ res, segment_analysis exSeg "region" = Except.ok res ∧
      (res.map SegmentRow.key).Pairwise (fun a b => a < b) ∧
      (∀ k, k ∈ res.map SegmentRow.key ↔ ∃ r, r ∈ exSeg.rows ∧ getStr r "region" = some k) ∧
      (∀ g ∈ res,
        g.default_mean =
          (listMean? ((groupRows exSeg "region" g.key).filterMap
            (fun r => getNum r "default"))).map round2 ∧
        g.credit_score_mean =
          (listMean? ((groupRows exSeg "region" g.key).filterMap
            (fun r => getNum r "credit_score"))).map round2 ∧
        g.loan_amount_mean =
          (listMean? ((groupRows exSeg "region" g.key).filterMap
            (fun r => getNum r "loan_amount"))).map round2) :=
  (segment_analysis_spec exSeg "region").2 (by decide) (by decide) (by decide) (by decide)

/-- Reading a cons row at a column checks the head cell first. -/
theorem getVal_cons (p : String × Value) (l : List (String × Value)) (c : String) :
    getVal (p :: l) c = if p.1 == c then p.2 else getVal l c := by
  by_cases hp : (p.1 == c) = true
  · have hf : List.find? (fun q => q.1 == c) (p :: l) = some p :=
      List.find?_cons_of_pos l hp
    unfold getVal
    rw [hf, if_pos hp]
  · have hf : List.find? (fun q => q.1 == c) (p :: l) = List.find? (fun q => q.1 == c) l :=
      List.find?_cons_of_neg l hp
    unfold getVal
    rw [hf, if_neg hp]

/-- Writing a present column and reading it back gives the written cell. -/
theorem getVal_map_set_self (c : String) (v : Value) :
    ∀ r : Row, r.any (fun p => p.1 == c) = true →
      getVal (r.map (fun p => if p.1 == c then (c, v) else p)) c = v := by
  intro r
  induction r with
  | nil => intro h; simp at h
  | cons p t ih =>
    intro h
    rw [List.map_cons]
    by_cases hp : (p.1 == c) = true
    · rw [if_pos hp, getVal_cons]
      simp
    · have hpf : (p.1 == c) = false := by
        cases hb : (p.1 == c) with
        | false => rfl
        | true => exact absurd hb hp
      rw [if_neg hp, getVal_cons, if_neg hp]
      refine ih ?_
      rw [List.any_cons, hpf, Bool.false_or] at h
      exact h

/-- Appending a fresh column and reading it back gives the appended cell. -/
theorem getVal_append_self (c : String) (v : Value) :
    ∀ r : Row, r.any (fun p => p.1 == c) = false →
      getVal (r ++ [(c, v)]) c = v := by
  intro r
  induction r with
  | nil =>
    intro _
    rw [List.nil_append, getVal_cons]
    simp
  | cons p t ih =>
    intro h
    rw [List.any_cons, Bool.or_eq_false_iff] at h
    rw [List.cons_append, getVal_cons, if_neg (by rw [h.1]; exact Bool.false_ne_true)]
    exact ih h.2

/-- Writing a column and reading it back gives the written cell. -/
theorem getVal_setVal_self (r : Row) (c : String) (v : Value) :
    getVal (setVal r c v) c = v := by
  unfold setVal
  by_cases h : r.any (fun p => p.1 == c) = true
  · rw [if_pos h]
    exact getVal_map_set_self c v r h
  · rw [if_neg h]
    refine getVal_append_self c v r ?_
    cases hb : r.any (fun p => p.1 == c) with
    | false => rfl
    | true => exact absurd hb h

/-- Writing one column leaves every other column's cells unchanged. -/
theorem getVal_map_set_ne (c c' : String) (v : Value) (hne : c' ≠ c) :
    ∀ r : Row, getVal (r.map (fun p => if p.1 == c then (c, v) else p)) c' = getVal r c' := by
  intro r
  induction r with
  | nil => rfl
  | cons p t ih =>
    rw [List.map_cons]
    by_cases hp : (p.1 == c) = true
    · have hpc : p.1 = c := by simpa using hp
      have h1 : (c == c') = false := by
        simpa using fun h => hne h.symm
      have hp1 : (p.1 == c') = false := by rw [hpc]; exact h1
      rw [if_pos hp, getVal_cons, getVal_cons,
        if_neg (by rw [h1]; exact Bool.false_ne_true),
        if_neg (by rw [hp1]; exact Bool.false_ne_true)]
      exact ih
    · rw [if_neg hp, getVal_cons, getVal_cons]
      by_cases hp' : (p.1 == c') = true
      · rw [if_pos hp', if_pos hp']
      · rw [if_neg hp', if_neg hp']
        exact ih

/-- Appending one fresh column leaves every other column unchanged. -/
theorem getVal_append_ne (c c' : String) (v : Value) (hne : c' ≠ c) :
    ∀ r : Row, getVal (r ++ [(c, v)]) c' = getVal r c' := by
  intro r
  induction r with
  | nil =>
    have h1 : (c == c') = false := by
      simpa using fun h => hne h.symm
    rw [List.nil_append, getVal_cons, if_neg (by rw [h1]; exact Bool.false_ne_true)]
  | cons p t ih =>
    rw [List.cons_append, getVal_cons, getVal_cons]
    by_cases hp' : (p.1 == c') = true
    · rw [if_pos hp', if_pos hp']
    · rw [if_neg hp', if_neg hp']
      exact ih

/-- `setVal` on one column does not affect any other column. -/
theorem getVal_setVal_ne (r : Row) (c c' : String) (v : Value) (hne : c' ≠ c) :
    getVal (setVal r c v) c' = getVal r c' := by
  unfold setVal
  by_cases h : r.any (fun p => p.1 == c) = true
  · rw [if_pos h]
    exact getVal_map_set_ne c c' v hne r
  · rw [if_neg h]
    exact getVal_append_ne c c' v hne r

/-- The numeric column values are the numeric view of the cell column. -/
theorem colVals_eq (f : Frame) (c : String) :
    colVals f c = (valueColumn f c).filterMap numOf := by
  unfold colVals valueColumn getNum
  rw [List.filterMap_map]
  rfl

/-- `cleanCol` preserves the schema. -/
theorem cleanCol_cols (f : Frame) (c : String) : (cleanCol f c).cols = f.cols := by
  simp only [cleanCol]
  split <;> rfl

/-- `cleanCol` on one column leaves every other column unchanged. -/
theorem valueColumn_cleanCol_ne (f : Frame) (c c' : String) (hne : c ≠ c') :
    valueColumn (cleanCol f c') c = valueColumn f c := by
  simp only [cleanCol]
  by_cases h : c' ∈ f.cols
  · rw [if_pos h]
    unfold valueColumn
    simp only [List.map_map]
    apply List.map_congr_left
    intro r _
    simp only [Function.comp_apply]
    rw [getVal_setVal_ne _ _ _ _ hne, getVal_setVal_ne _ _ _ _ hne]
  · rw [if_neg h]

/-- Writing a per-cell transform of a column and reading the column back is
mapping the transform over the column. -/
theorem valueColumn_set_map (c : String) (rows : List Row) (t : Value → Value) :
    (rows.map (fun r => setVal r c (t (getVal r c)))).map (fun r => getVal r c)
      = (rows.map (fun r => getVal r c)).map t := by
  rw [List.map_map, List.map_map]
  apply List.map_congr_left
  intro r _
  simp only [Function.comp_apply]
  exact getVal_setVal_self r c _

/-- The numeric values of a column after a per-cell write, as the numeric
view of the transformed cells. -/
theorem filterMap_set_map (c : String) (rows : List Row) (t : Value → Value) :
    (rows.map (fun r => setVal r c (t (getVal r c)))).filterMap (fun r => getNum r c)
      = ((rows.map (fun r => getVal r c)).map t).filterMap numOf := by
  rw [List.filterMap_map, List.filterMap_map, List.filterMap_map]
  apply filterMap_ext
  intro r
  simp only [Function.comp_apply, getNum]
  rw [getVal_setVal_self]

/-- The effect of `cleanCol` on its own (present) column: fill missing
cells with the pre-fill median, then clip at the 99th percentile of the
filled column. -/
theorem valueColumn_cleanCol_self (f : Frame) (c : String) (h : c ∈ f.cols) :
    valueColumn (cleanCol f c) c =
      ((valueColumn f c).map (fillCell (medianQ? (colVals f c)))).map
        (clipCell (quantile99?
          (((valueColumn f c).map (fillCell (medianQ? (colVals f c)))).filterMap numOf))) := by
  simp only [cleanCol, if_pos h]
  unfold valueColumn
  rw [filterMap_set_map, valueColumn_set_map, valueColumn_set_map]

/-- The schema is unchanged by the whole cleaning fold. -/
theorem clean_foldl_cols (l : List String) :
    ∀ f : Frame, (l.foldl cleanCol f).cols = f.cols := by
  induction l with
  | nil => intro f; rfl
  | cons c l ih =>
    intro f
    rw [List.foldl_cons, ih, cleanCol_cols]

/-- A column not named in the fold is unchanged by it. -/
theorem clean_foldl_ne (l : List String) (c : String) (hl : ∀ c' ∈ l, c ≠ c') :
    ∀ f : Frame, valueColumn (l.foldl cleanCol f) c = valueColumn f c := by
  induction l with
  | nil => intro f; rfl
  | cons c' l ih =>
    intro f
    rw [List.foldl_cons, ih (fun x hx => hl x (List.mem_cons_of_mem _ hx))]
    exact valueColumn_cleanCol_ne f c c' (hl c' (List.mem_cons_self _ _))

/-- C9: for every listed column (the listing without duplicates, as in the
caller) present in the schema, `clean_numeric` first replaces the column's
missing values with the column's median computed ignoring missing values,
then clips values above the column's 99th percentile — computed after the
median fill — down to that percentile; listed columns absent from the
schema are skipped without error (the column, like the rest of the frame,
is unchanged), and values at or below the clip bound are unchanged. -/
theorem clean_numeric_spec (f : Frame) (ncols : List String) (c : String)
    (hnd : ncols.Nodup) (hc : c ∈ ncols) :
    (c ∈ f.cols →
      valueColumn (clean_numeric f ncols) c =
        ((valueColumn f c).map (fillCell (medianQ? (colVals f c)))).map
          (clipCell (quantile99?
            (((valueColumn f c).map (fillCell (medianQ? (colVals f c)))).filterMap numOf)))) ∧
    (c ∉ f.cols → valueColumn (clean_numeric f ncols) c = valueColumn f c) ∧
    (∀ x u : ℚ, x ≤ u → clipCell (some u) (Value.num x) = Value.num x) := by
  obtain ⟨l1, l2, rfl⟩ := List.append_of_mem hc
  rw [List.nodup_append] at hnd
  obtain ⟨h1, h2, hdisj⟩ := hnd
  have hcl2 : c ∉ l2 := (List.nodup_cons.mp h2).1
  have hcl1 : c ∉ l1 := fun hx => hdisj hx (List.mem_cons_self _ _)
  have hfold : clean_numeric f (l1 ++ c :: l2)
      = l2.foldl cleanCol (cleanCol (l1.foldl cleanCol f) c) := by
    rw [clean_numeric, List.foldl_append, List.foldl_cons]
  have hne2 : ∀ c' ∈ l2, c ≠ c' := fun c' h' heq => hcl2 (heq ▸ h')
  have hne1 : ∀ c' ∈ l1, c ≠ c' := fun c' h' heq => hcl1 (heq ▸ h')
  have hcols1 : (l1.foldl cleanCol f).cols = f.cols := clean_foldl_cols l1 f
  have hvc : valueColumn (l1.foldl cleanCol f) c = valueColumn f c :=
    clean_foldl_ne l1 c hne1 f
  refine ⟨?_, ?_, ?_⟩
  · intro hcc
    rw [hfold, clean_foldl_ne l2 c hne2]
    rw [valueColumn_cleanCol_self _ c (by rw [hcols1]; exact hcc)]
    rw [hvc, colVals_eq, colVals_eq, hvc]
  · intro hcc
    have hskip : cleanCol (l1.foldl cleanCol f) c = l1.foldl cleanCol f := by
      simp only [cleanCol]
      rw [if_neg (by rw [hcols1]; exact hcc)]
    rw [hfold, hskip, clean_foldl_ne l2 c hne2, hvc]
  · intro x u hxu
    simp [clipCell, min_eq_left hxu]

/-- C9, witness at the one-column frame with a missing value: median `2`
fills the gap and the 99th percentile `2.98` clips the top value. -/
theorem clean_numeric_spec_witness :
    valueColumn (clean_numeric exClean ["amount"]) "amount"
      = [Value.num 1, Value.num 2, Value.num (149 / 50)] := by
  have h := (clean_numeric_spec exClean ["amount"] "amount" (by decide) (by decide)).1
    (by decide)
  rw [h]
  have h1 : colVals exClean "amount" = [1, 3] := by
    simp +decide [colVals, exClean, getNum, getVal, numOf]
  have h2 : valueColumn exClean "amount" = [Value.num 1, Value.null, Value.num 3] := by
    simp +decide [valueColumn, exClean, getVal]
  have h3 : medianQ? [1, 3] = some 2 := by
    simp +decide [medianQ?, List.insertionSort, List.orderedInsert]
    norm_num
  have h4 : [Value.num 1, Value.null, Value.num 3].map (fillCell (some 2))
      = [Value.num 1, Value.num 2, Value.num 3] := by
    simp [fillCell]
  have h5 : [Value.num 1, Value.num 2, Value.num 3].filterMap numOf = [(1 : ℚ), 2, 3] := by
    simp [numOf]
  have h6 : quantile99? [(1 : ℚ), 2, 3] = some (149 / 50) := by
    have hfl : (⌊((([(1 : ℚ), 2, 3].length : ℕ) : ℚ) - 1) * (99 / 100)⌋ : ℤ) = 1 := by
      norm_num
    simp +decide [quantile99?, List.insertionSort, List.orderedInsert, hfl]
    norm_num
  rw [h1, h2, h3, h4, h5, h6]
  simp [clipCell]
  norm_num [min_def]

end FinRisk
